import Mathlib

/-!
Verification development for the PromptForge mobile app core
(request orchestration and post-processing pipeline, src/app.js).

Strings are modelled as lists of characters.  The JavaScript regular
expression rewrites of the text pipeline are compiled by hand into
executable scanners over character lists that reproduce the JS
left-to-right, leftmost-match, ordered-alternation-with-backtracking
replacement semantics of each concrete pattern appearing in the source.
Timestamps and character budgets are natural numbers.  One remark on
floating point: the source compares a space index against
maxChars * 0.6; for natural maxChars this is modelled by the exact
rational comparison 3 * maxChars < 5 * i, which agrees with the
IEEE evaluation on all inputs considered here.
-/

namespace PromptForge

/-- JavaScript word character class, ASCII part: letters, digits, underscore. -/
def isWordChar (c : Char) : Bool :=
  c.isAlpha || c.isDigit || c == '_'

/-- JavaScript whitespace class (ASCII part) used by the \s character class,
String.trim and String.split in the source. -/
def isJsSpace (c : Char) : Bool :=
  c == ' ' || c == '\t' || c == '\n' || c == '\r' || c == '\x0b' || c == '\x0c'

/-- Drop the longest trailing run of characters satisfying p
(used to model anchored replace of a trailing character class with the
empty string). -/
def rstrip (p : Char → Bool) (s : List Char) : List Char :=
  (s.reverse.dropWhile p).reverse

/-- JavaScript String.trim: strip leading and trailing whitespace. -/
def trimJs (s : List Char) : List Char :=
  rstrip isJsSpace (s.dropWhile isJsSpace)

/-- Character class appearing in clampToMaxChars:
out.replace of a trailing run of whitespace, comma, dot, semicolon, colon,
hyphen, en dash or em dash. -/
def isClampStrip (c : Char) : Bool :=
  isJsSpace c || c == ',' || c == '.' || c == ';' || c == ':' || c == '-' || c == '–' || c == '—'

/-- Index of the last occurrence of c in s (JS String.lastIndexOf),
none when absent. -/
def lastIdxOfAux (c : Char) : List Char → Nat → Option Nat → Option Nat
  | [], _, acc => acc
  | a :: rest, i, acc => lastIdxOfAux c rest (i + 1) (if a == c then some i else acc)

/-- Index of the last occurrence of c in s, none when absent. -/
def lastIdxOf (c : Char) (s : List Char) : Option Nat :=
  lastIdxOfAux c s 0 none

/-- Word-boundary cut of clampToMaxChars: given out = text.slice(0, maxChars),
cut at the last space when it lies past 60 percent of the budget
(source: if (lastSpace > maxChars * 0.6) out = out.slice(0, lastSpace)). -/
def clampWordCut (out : List Char) (maxChars : Nat) : List Char :=
  match lastIdxOf ' ' out with
  | some i => if 3 * maxChars < 5 * i then out.take i else out
  | none => out

/-- Body of the truncating branch of clampToMaxChars: slice to maxChars,
word-boundary cut, strip trailing punctuation and whitespace, trim. -/
def clampCut (text : List Char) (maxChars : Nat) : List Char :=
  trimJs (rstrip isClampStrip (clampWordCut (text.take maxChars) maxChars))

/-- Model of clampToMaxChars (src/app.js lines 119-125).  The JS guard
(!text || !maxChars || text.length <= maxChars) return text || ""
is the first branch: for an empty list text || "" is again the empty list,
and the missing/zero maxChars cases are both the zero case here.
A null text argument is modelled separately by clampToMaxCharsOpt. -/
def clampToMaxChars (text : List Char) (maxChars : Nat) : List Char :=
  if text = [] ∨ maxChars = 0 ∨ text.length ≤ maxChars then text
  else clampCut text maxChars

/-- Model of clampToMaxChars when the text argument may be null:
a null text is falsy, so the source returns text || "", the empty string. -/
def clampToMaxCharsOpt (text : Option (List Char)) (maxChars : Nat) : List Char :=
  match text with
  | none => []
  | some t => clampToMaxChars t maxChars

/-- Case-insensitive consumption of a literal pattern from the head of s,
returning the remainder on success.  This is the building block of the
hand-compiled regex matchers; the source regexes carry the i flag. -/
def ciConsume : List Char → List Char → Option (List Char)
  | [], s => some s
  | _ :: _, [] => none
  | p :: ps, c :: cs => if p.toLower == c.toLower then ciConsume ps cs else none

/-- Drop leading JS whitespace (the regex \s* with maximal munch; all
patterns in the source follow \s* or \s+ with a non-space literal, so
maximal munch is equivalent to the backtracking semantics). -/
def dropSpacesJs (s : List Char) : List Char :=
  s.dropWhile isJsSpace

/-- Match \s+ (one or more whitespace characters), maximal munch. -/
def spaces1 (s : List Char) : Option (List Char) :=
  match s with
  | c :: rest => if isJsSpace c then some (dropSpacesJs rest) else none
  | [] => none

/-- Word boundary test after a word character has just been consumed:
true when the remainder starts with a non-word character or is empty. -/
def atBoundaryAfter (s : List Char) : Bool :=
  match s with
  | [] => true
  | c :: _ => !isWordChar c

/-- Generic search: does the matcher succeed at some position of s?
Models RegExp.test for the hand-compiled patterns. -/
def ciSearch (m : List Char → Option (List Char)) : List Char → Bool
  | [] => (m []).isSome
  | c :: rest => (m (c :: rest)).isSome || ciSearch m rest

/-- Case-insensitive literal substring test.  In addSuffixSafely the source
builds new RegExp(phrase with all regex metacharacters escaped, "i"), so the
test is exactly case-insensitive literal containment. -/
def ciContains (needle hay : List Char) : Bool :=
  ciSearch (fun s => ciConsume needle s) hay

/-- One replacement pass of String.replace with a global regex, compiled to
a scanner: at each position, with the word-boundary context prevW of the
previous original character, try the matcher; on a match emit the
replacement and resume after the matched characters (the boundary context
for the continuation is the last matched original character). -/
def scanReplaceAux (m : Bool → List Char → Option (List Char)) (repl : List Char) :
    Nat → Bool → List Char → List Char
  | 0, _, s => s
  | _ + 1, _, [] => []
  | fuel + 1, prevW, c :: rest =>
    match m prevW (c :: rest) with
    | some remainder =>
      let consumed := (c :: rest).length - remainder.length
      let lastC := ((c :: rest).take consumed).getLastD ' '
      repl ++ scanReplaceAux m repl fuel (isWordChar lastC) remainder
    | none => c :: scanReplaceAux m repl fuel (isWordChar c) rest

/-- One global replacement pass over the whole string; the start of the
string is a non-word context.  All matchers below consume at least one
character, so fuel s.length suffices for a full pass. -/
def scanReplace (m : Bool → List Char → Option (List Char)) (repl : List Char)
    (s : List Char) : List Char :=
  scanReplaceAux m repl s.length false s

/-- Matcher for one of left, right, top, bottom, center (ordered alternation
of the copy-space regex; the alternatives do not overlap). -/
def matchDirWord (s : List Char) : Option (List Char) :=
  ciConsume "left".toList s <|> ciConsume "right".toList s <|> ciConsume "top".toList s <|>
    ciConsume "bottom".toList s <|> ciConsume "center".toList s

/-- Tail \s*(the)?\s*(left|right|top|bottom|center) of the copy-space regex
after a preposition, with the greedy optional (the)? tried first. -/
def csDirTail (s : List Char) : Option (List Char) :=
  let s1 := dropSpacesJs s
  (do
    let s2 ← ciConsume "the".toList s1
    matchDirWord (dropSpacesJs s2)) <|> matchDirWord s1

/-- Ordered alternation (on|at|to|toward|towards) followed by csDirTail,
with full backtracking into later alternatives as in the JS engine. -/
def csPrepTail (s : List Char) : Option (List Char) :=
  (ciConsume "on".toList s >>= csDirTail) <|>
    (ciConsume "at".toList s >>= csDirTail) <|>
    (ciConsume "to".toList s >>= csDirTail) <|>
    (ciConsume "toward".toList s >>= csDirTail) <|>
    (ciConsume "towards".toList s >>= csDirTail)

/-- Matcher for the first stripCopySpace regex
copy\s*space with a leading word boundary, a trailing word boundary and the
greedy optional directional tail (src/app.js line 131). -/
def matchCopySpace (prevW : Bool) (s : List Char) : Option (List Char) :=
  if prevW then none
  else do
    let s1 ← ciConsume "copy".toList s
    let s2 ← ciConsume "space".toList (dropSpacesJs s1)
    if atBoundaryAfter s2 then
      match csPrepTail (dropSpacesJs s2) with
      | some s3 => some s3
      | none => some s2
    else none

/-- Matcher for negative\s*space with word boundaries
(src/app.js line 132). -/
def matchNegSpace (prevW : Bool) (s : List Char) : Option (List Char) :=
  if prevW then none
  else do
    let s1 ← ciConsume "negative".toList s
    let s2 ← ciConsume "space".toList (dropSpacesJs s1)
    if atBoundaryAfter s2 then some s2 else none

/-- Matcher for \s{2,}: a run of at least two whitespace characters. -/
def matchMultiSpace (_ : Bool) (s : List Char) : Option (List Char) :=
  match s with
  | c1 :: c2 :: rest =>
    if isJsSpace c1 && isJsSpace c2 then some (dropSpacesJs rest) else none
  | _ => none

/-- Matcher for \s+, (whitespace then a comma). -/
def matchSpacesComma (_ : Bool) (s : List Char) : Option (List Char) := do
  let s1 ← spaces1 s
  match s1 with
  | ',' :: rest => some rest
  | _ => none

/-- Matcher for ,\s*, (comma, optional whitespace, comma). -/
def matchCommaSpComma (_ : Bool) (s : List Char) : Option (List Char) :=
  match s with
  | ',' :: rest =>
    match dropSpacesJs rest with
    | ',' :: rest2 => some rest2
    | _ => none
  | _ => none

/-- Non-global replace of ,\s*$ with the empty string: remove the leftmost
comma whose tail consists only of whitespace, together with that tail. -/
def dropCommaTailAux : List Char → List Char
  | [] => []
  | c :: rest =>
    if c == ',' && rest.all isJsSpace then [] else c :: dropCommaTailAux rest

/-- Model of stripCopySpace (src/app.js lines 128-135): remove copy-space
and negative-space phrases, then normalize whitespace and stray commas.
For the empty string every pass is the identity, matching the early
return of the source. -/
def stripCopySpace (line : List Char) : List Char :=
  let out := scanReplace matchCopySpace [] line
  let out := scanReplace matchNegSpace [] out
  let out := scanReplace matchMultiSpace [' '] out
  let out := scanReplace matchSpacesComma [',', ' '] out
  let out := scanReplace matchCommaSpComma [',', ' '] out
  trimJs (dropCommaTailAux out)

/-- Matcher for word\s+background with a trailing word boundary; shared tail
of the forceWhiteBackground regexes. -/
def matchWordBgTail (w : List Char) (s : List Char) : Option (List Char) := do
  let s1 ← ciConsume w s
  let s2 ← spaces1 s1
  let s3 ← ciConsume "background".toList s2
  if atBoundaryAfter s3 then some s3 else none

/-- Greedy optional article (?:an?\s+)? followed by a continuation, with the
JS backtracking order: an, then a, then absent. -/
def tryArticleThen (cont : List Char → Option (List Char)) (s : List Char) :
    Option (List Char) :=
  (do
    let s1 ← ciConsume "an".toList s
    let s2 ← spaces1 s1
    cont s2) <|>
  (do
    let s1 ← ciConsume "a".toList s
    let s2 ← spaces1 s1
    cont s2) <|>
  cont s

/-- Matcher for prep\s+(?:an?\s+)?transparent\s+background with word
boundaries, for prep being on, against or with
(src/app.js lines 141-143). -/
def matchPrepTransparent (prep : List Char) (prevW : Bool) (s : List Char) :
    Option (List Char) :=
  if prevW then none
  else do
    let s1 ← ciConsume prep s
    let s2 ← spaces1 s1
    tryArticleThen (matchWordBgTail "transparent".toList) s2

/-- Matcher for w\s+background with word boundaries, for w being
transparent, no, alpha or clear (src/app.js lines 144-147). -/
def matchSimpleBg (w : List Char) (prevW : Bool) (s : List Char) :
    Option (List Char) :=
  if prevW then none else matchWordBgTail w s

/-- Tail \s+(?:an?\s+)?(?:transparent|clear|alpha)\s+background of the
isolated regex (src/app.js line 148). -/
def isolatedTail (s : List Char) : Option (List Char) := do
  let s1 ← spaces1 s
  tryArticleThen
    (fun s2 =>
      matchWordBgTail "transparent".toList s2 <|> matchWordBgTail "clear".toList s2 <|>
        matchWordBgTail "alpha".toList s2) s1

/-- Matcher for isolated(?:\s+on)?\s+(?:an?\s+)?(?:transparent|clear|alpha)
\s+background with word boundaries (src/app.js line 148). -/
def matchIsolatedBg (prevW : Bool) (s : List Char) : Option (List Char) :=
  if prevW then none
  else do
    let s1 ← ciConsume "isolated".toList s
    (do
      let s2 ← spaces1 s1
      let s3 ← ciConsume "on".toList s2
      isolatedTail s3) <|> isolatedTail s1

/-- Model of forceWhiteBackground (src/app.js lines 137-150): the eight
global case-insensitive replaces, applied in source order. -/
def forceWhiteBackground (line : List Char) : List Char :=
  let out := scanReplace (matchPrepTransparent "on".toList) "on a white background".toList line
  let out := scanReplace (matchPrepTransparent "against".toList) "against a white background".toList out
  let out := scanReplace (matchPrepTransparent "with".toList) "with a white background".toList out
  let out := scanReplace (matchSimpleBg "transparent".toList) "white background".toList out
  let out := scanReplace (matchSimpleBg "no".toList) "white background".toList out
  let out := scanReplace (matchSimpleBg "alpha".toList) "white background".toList out
  let out := scanReplace (matchSimpleBg "clear".toList) "white background".toList out
  scanReplace matchIsolatedBg "isolated on white background".toList out

/-- Matcher for w\s+background without word boundaries. -/
def matchWordBgLoose (w : List Char) (s : List Char) : Option (List Char) := do
  let s1 ← ciConsume w s
  let s2 ← spaces1 s1
  ciConsume "background".toList s2

/-- Model of the test /transparent\s+background/i of src/app.js line 948
(no word boundaries in this one). -/
def containsTransparentBg (s : List Char) : Bool :=
  ciSearch (matchWordBgLoose "transparent".toList) s

/-- The punctuation class [,.;:–—-] of addSuffixSafely deciding the joiner. -/
def punctJoinSet (c : Char) : Bool :=
  c == ',' || c == '.' || c == ';' || c == ':' || c == '–' || c == '—' || c == '-'

/-- Test /[,.;:–—-]\s*$/ on t: the last non-whitespace character exists and
lies in the punctuation class. -/
def endsPunctThenSpaces (t : List Char) : Bool :=
  match t.reverse.dropWhile isJsSpace with
  | [] => false
  | c :: _ => punctJoinSet c

/-- Strip a trailing run of [\s,.;:–—-] (the core cleanup replace inside
addSuffixSafely; the character set coincides with isClampStrip). -/
def stripTrailJoin (s : List Char) : List Char :=
  rstrip (fun c => isJsSpace c || punctJoinSet c) s

/-- Joiner chosen by addSuffixSafely: a single space when the trimmed line
already ends with terminal punctuation, otherwise comma space. -/
def joinFor (t : List Char) : List Char :=
  if endsPunctThenSpaces t then [' '] else [',', ' ']

/-- Budget for the retained core of the line:
Math.max(0, maxChars - (join + phrase).length), with truncated natural
subtraction playing the role of the max with zero. -/
def budgetOf (line phrase : List Char) (maxChars : Nat) : Nat :=
  maxChars - (joinFor (trimJs line) ++ phrase).length

/-- Core retained by the appending branch of addSuffixSafely:
clamp the trimmed line to the budget, then trim and strip trailing
punctuation (source line 163). -/
def coreOf (line phrase : List Char) (maxChars : Nat) : List Char :=
  trimJs (stripTrailJoin (trimJs (clampToMaxChars (trimJs line) (budgetOf line phrase maxChars))))

/-- Appending branch of addSuffixSafely (source lines 158-164):
return (core ? core + join : "") + phrase. -/
def addSuffixAppendCore (line phrase : List Char) (maxChars : Nat) : List Char :=
  if coreOf line phrase maxChars = [] then phrase
  else coreOf line phrase maxChars ++ joinFor (trimJs line) ++ phrase

/-- Model of addSuffixSafely (src/app.js lines 153-168).  The try/catch of
the source is omitted: the only throwing construct there is the RegExp
constructor on an escaped literal, which cannot fail. -/
def addSuffixSafely (line phrase : List Char) (maxChars : Nat) : List Char :=
  if phrase = [] then clampToMaxChars line maxChars
  else if ciContains phrase line then clampToMaxChars line maxChars
  else addSuffixAppendCore line phrase maxChars

/-- Drop one trailing carriage return (pieces produced by splitting on a
line feed, so that the separators are exactly \r?\n). -/
def stripTrailCR (l : List Char) : List Char :=
  match l.getLast? with
  | some '\r' => l.dropLast
  | _ => l

/-- First-line selection of processApiResponse (src/app.js line 936):
split on \r?\n, trim every piece, keep the non-empty ones, first or "". -/
def firstNonEmptyLine (text : List Char) : List Char :=
  (((text.splitOn '\n').map (fun l => trimJs (stripTrailCR l))).filter
    (fun l => !l.isEmpty)).headD []

/-- The canonical suffix appended for cutout or transparent images. -/
def suffixIso : List Char := "isolated on white background".toList

/-- Model of the text-format branch of processApiResponse
(src/app.js lines 936-955).  The analyzer signals cutout and checker are
passed in as the booleans the two detectors produced. -/
def processApiResponseTxt (text : List Char) (cutout checker : Bool) (maxChars : Nat) :
    List Char :=
  let line := stripCopySpace (firstNonEmptyLine text)
  let line :=
    if cutout || checker then
      addSuffixSafely (forceWhiteBackground line) suffixIso maxChars
    else if containsTransparentBg line then
      addSuffixSafely (forceWhiteBackground line) suffixIso maxChars
    else line
  clampToMaxChars line maxChars

/-- CONFIG.COOLDOWN_MAX_MS: maximal cooldown for rate limited keys. -/
def COOLDOWN_MAX_MS : Nat := 10 * 60 * 1000

/-- Health record of one credential in the rotation map keyState:
key maps to { nextAt, fails }. -/
structure KeyRec where
  nextAt : Nat
  fails : Nat
deriving DecidableEq

/-- Module state touched by the outcome handlers: the key rotation map and
the global lastApiCallAt timestamp. -/
structure PoolState where
  keyMap : String → Option KeyRec
  lastApiCallAt : Nat

/-- Fresh pool: no key has an entry, lastApiCallAt is 0. -/
def emptyPool : PoolState := ⟨fun _ => none, 0⟩

/-- keyState.get(key) with the default record { nextAt: 0, fails: 0 }. -/
def keyStateGet (st : PoolState) (key : String) : KeyRec :=
  (st.keyMap key).getD ⟨0, 0⟩

/-- Model of markKeyOK (src/app.js lines 182-188): reset the record and
update the global timestamp. -/
def markKeyOK (now : Nat) (key : String) (st : PoolState) : PoolState :=
  { keyMap := fun k2 => if k2 = key then some ⟨0, 0⟩ else st.keyMap k2,
    lastApiCallAt := now }

/-- Model of markKey429 (src/app.js lines 190-196): increment the failure
count, then set nextAt to now plus the linear cooldown 30000 * fails
capped at COOLDOWN_MAX_MS. -/
def markKey429 (now : Nat) (key : String) (st : PoolState) : PoolState :=
  { st with
    keyMap := fun k2 =>
      if k2 = key then
        some ⟨now + min COOLDOWN_MAX_MS (30000 * ((keyStateGet st key).fails + 1)),
              (keyStateGet st key).fails + 1⟩
      else st.keyMap k2 }

/-- Apply markKey429 to one key n consecutive times, the i-th application
happening at time times i (no intervening success). -/
def penalizeIter (st : PoolState) (key : String) (times : Nat → Nat) : Nat → PoolState
  | 0 => st
  | n + 1 => markKey429 (times (n + 1)) key (penalizeIter st key times n)

/-- Loop of pickBestKey (src/app.js lines 198-215): first-fit scan that
returns an immediately available key with zero wait, otherwise tracks the
candidate with the strictly smallest nextAt; at the end of the list the
caller sleeps for the remaining delta, and an empty list falls back to
keys[0].  The second component is the milliseconds slept before use. -/
def pickBestKeyAux (st : PoolState) (now : Nat) (fallback : Option String) :
    List String → Option (String × KeyRec) → Option String × Nat
  | [], best =>
    match best with
    | some (bk, bs) => (some bk, bs.nextAt - now)
    | none => (fallback, 0)
  | k :: rest, best =>
    if (keyStateGet st k).nextAt ≤ now then (some k, 0)
    else
      pickBestKeyAux st now fallback rest
        (match best with
         | none => some (k, keyStateGet st k)
         | some (bk, bs) =>
           if (keyStateGet st k).nextAt < bs.nextAt then some (k, keyStateGet st k)
           else some (bk, bs))

/-- Model of pickBestKey: scan the configured key list in order. -/
def pickBestKey (st : PoolState) (now : Nat) (keys : List String) :
    Option String × Nat :=
  pickBestKeyAux st now keys.head? keys none

/-- One scheduler outcome-handler call: a success (markKeyOK) or a penalty
(markKey429) for some key at some time. -/
inductive PoolEvent where
  | ok (key : String) (now : Nat)
  | rate429 (key : String) (now : Nat)
deriving DecidableEq

/-- Apply one outcome-handler call to the pool state. -/
def applyEvent : PoolEvent → PoolState → PoolState
  | .ok k now, st => markKeyOK now k st
  | .rate429 k now, st => markKey429 now k st

/-- Apply a sequence of outcome-handler calls in order. -/
def applyEvents (evs : List PoolEvent) (st : PoolState) : PoolState :=
  evs.foldl (fun s e => applyEvent e s) st

/-- Does this event record a success for the given key? -/
def isSuccessFor (key : String) : PoolEvent → Bool
  | .ok k2 _ => k2 == key
  | .rate429 _ _ => false

/-- Observable outcome of one network attempt of the retry loop of
callGeminiAPI (src/app.js lines 860-911): a 429 response, a 5xx response,
another non-ok response with a message, a thrown transport error, or an ok
response whose extracted candidate text may be empty. -/
inductive NetOutcome where
  | rateLimited
  | serverError
  | clientError (msg : String)
  | networkError (msg : String)
  | success (text : String)
deriving DecidableEq

/-- Errors the loop records in lastError, plus the generic exhaustion
error thrown when the budget is spent with no error recorded. -/
inductive ApiFailure where
  | rateLimitExceeded
  | apiError (msg : String)
  | emptyResponse
  | networkFailure (msg : String)
  | allKeysFailed
deriving DecidableEq

/-- What one attempt outcome records into lastError: a 5xx response and a
usable success record nothing; an ok response with empty text records the
empty-response error. -/
def recordOf : NetOutcome → Option ApiFailure
  | .rateLimited => some .rateLimitExceeded
  | .serverError => none
  | .clientError m => some (.apiError m)
  | .networkError m => some (.networkFailure m)
  | .success t => if t = "" then some .emptyResponse else none

/-- Model of the while (attempt < maxAttempts) retry loop of callGeminiAPI:
fuel is the number of attempts still allowed, done the number already
performed, last the recorded lastError.  Key selection, sleeping and the
key-state marking do not influence the control flow modelled here; the
early return carries the usable candidate text (which the source then
post-processes).  The result pairs the loop exit value with the total
number of attempts performed. -/
def retryLoop (outcome : Nat → NetOutcome) :
    Nat → Nat → Option ApiFailure → Except ApiFailure String × Nat
  | 0, done, last => (.error (last.getD .allKeysFailed), done)
  | fuel + 1, done, last =>
    match outcome (done + 1) with
    | .rateLimited => retryLoop outcome fuel (done + 1) (some .rateLimitExceeded)
    | .serverError => retryLoop outcome fuel (done + 1) last
    | .clientError m => retryLoop outcome fuel (done + 1) (some (.apiError m))
    | .networkError m => retryLoop outcome fuel (done + 1) (some (.networkFailure m))
    | .success t =>
      if t = "" then retryLoop outcome fuel (done + 1) (some .emptyResponse)
      else (.ok t, done + 1)

/-- The last error recorded among the first n attempts, following the
recording discipline of the loop. -/
def lastRecordedUpTo (outcome : Nat → NetOutcome) : Nat → Option ApiFailure
  | 0 => none
  | n + 1 => (recordOf (outcome (n + 1))).orElse (fun _ => lastRecordedUpTo outcome n)

/-- The retry phase of callGeminiAPI for a given key list: maxAttempts is
apiKeys.length * 3 (src/app.js line 858), starting with no attempts done
and no error recorded. -/
def callGeminiAPIRetry (keys : List String) (outcome : Nat → NetOutcome) :
    Except ApiFailure String × Nat :=
  retryLoop outcome (keys.length * 3) 0 none

/-- Side reported by the copy-space detector. -/
inductive CsSide where
  | left
  | right
  | top
  | bottom
deriving DecidableEq

/-- Result record of detectCopySpace. -/
structure CopySpaceResult where
  isCopySpace : Bool
  side : Option CsSide
  score : Rat
deriving DecidableEq

/-- The neutral no-signal result { isCopySpace: false, side: null, score: 0 }. -/
def neutralCopySpace : CopySpaceResult := ⟨false, none, 0⟩

/-- Result record of detectCutoutOrCheckerboard. -/
structure CutoutResult where
  cutout : Bool
  checker : Bool
deriving DecidableEq

/-- The neutral no-signal result { cutout: false, checker: false }. -/
def neutralCutout : CutoutResult := ⟨false, false⟩

/-- Control skeleton of detectCopySpace (src/app.js lines 241-303): the
whole body runs inside try/catch whose catch returns the neutral result,
and a falsy dataUrl returns the neutral result up front.  The pixel
analysis itself (blob decoding, canvas drawing and floating point gradient
statistics) is modelled as an arbitrary fallible computation body; the
theorem about this function quantifies over every behaviour of that body,
including every possible internal failure. -/
def detectCopySpace (dataUrl : Option (List Char))
    (body : List Char → Except String CopySpaceResult) : CopySpaceResult :=
  match
    (match dataUrl with
     | none => Except.ok neutralCopySpace
     | some d => if d.isEmpty then Except.ok neutralCopySpace else body d) with
  | .ok r => r
  | .error _ => neutralCopySpace

/-- Control skeleton of detectCutoutOrCheckerboard (src/app.js lines
306-348), modelled exactly as detectCopySpace: try/catch returning the
neutral result, falsy dataUrl guard, arbitrary fallible body. -/
def detectCutoutOrCheckerboard (dataUrl : Option (List Char))
    (body : List Char → Except String CutoutResult) : CutoutResult :=
  match
    (match dataUrl with
     | none => Except.ok neutralCutout
     | some d => if d.isEmpty then Except.ok neutralCutout else body d) with
  | .ok r => r
  | .error _ => neutralCutout

/-- Modelled from the spec: the claim condition that the text still
mentions a transparent, alpha, clear, or no background (case-insensitive,
whitespace separated).  The code itself only tests
/transparent\s+background/i; this spec-side predicate is used to exhibit
the counterexample for that claim. -/
def specMentionsAnyBg (s : List Char) : Bool :=
  ciSearch (matchWordBgLoose "transparent".toList) s ||
    ciSearch (matchWordBgLoose "alpha".toList) s ||
    ciSearch (matchWordBgLoose "clear".toList) s ||
    ciSearch (matchWordBgLoose "no".toList) s

/-- Case-sensitive literal consumption of a pattern from the head of s. -/
def litConsume : List Char → List Char → Option (List Char)
  | [], s => some s
  | _ :: _, [] => none
  | p :: ps, c :: cs => if p == c then litConsume ps cs else none

/-- Plain (case-sensitive) substring containment. -/
def containsSub (needle hay : List Char) : Bool :=
  ciSearch (litConsume needle) hay

/-- Does s end with the given suffix (case-sensitive)? -/
def endsWithSub (suf s : List Char) : Bool :=
  (litConsume suf.reverse s.reverse).isSome

/-- The raw model response of the end-to-end scenario. -/
def rawC1 : List Char :=
  "A cat on a transparent background, copy space on the left".toList

/-- A raw model response mentioning an alpha background but not a
transparent background. -/
def rawC2 : List Char := "a product photo, alpha background".toList

/-- A short line used to exhibit the small-budget behaviour of
addSuffixSafely. -/
def lineC6 : List Char := "hello world and more".toList

end PromptForge

namespace PromptForge

theorem length_dropWhile_le (p : Char → Bool) (l : List Char) :
    (l.dropWhile p).length ≤ l.length := by
  induction l with
  | nil => simp
  | cons c rest ih =>
    rw [List.dropWhile_cons]
    split
    · exact le_trans ih (by simp)
    · exact le_refl _

theorem length_rstrip_le (p : Char → Bool) (s : List Char) :
    (rstrip p s).length ≤ s.length := by
  unfold rstrip
  rw [List.length_reverse]
  calc (s.reverse.dropWhile p).length ≤ s.reverse.length := length_dropWhile_le p s.reverse
    _ = s.length := List.length_reverse s

theorem length_trimJs_le (s : List Char) : (trimJs s).length ≤ s.length := by
  unfold trimJs
  exact le_trans (length_rstrip_le _ _) (length_dropWhile_le _ _)

theorem length_clampWordCut_le (out : List Char) (m : Nat) :
    (clampWordCut out m).length ≤ out.length := by
  unfold clampWordCut
  cases h : lastIdxOf ' ' out with
  | none => exact le_refl _
  | some i =>
    simp only
    split
    · rw [List.length_take]
      exact Nat.min_le_right _ _
    · exact le_refl _

theorem length_clampCut_le (text : List Char) (m : Nat) :
    (clampCut text m).length ≤ m := by
  unfold clampCut
  refine le_trans (length_trimJs_le _)
    (le_trans (length_rstrip_le _ _) (le_trans (length_clampWordCut_le _ _) ?_))
  rw [List.length_take]
  exact Nat.min_le_left _ _

theorem clampToMaxChars_noop (text : List Char) (m : Nat) (h : text.length ≤ m) :
    clampToMaxChars text m = text := by
  unfold clampToMaxChars
  rw [if_pos (Or.inr (Or.inr h))]

theorem length_clampToMaxChars_le (text : List Char) (m : Nat) (h : 1 ≤ m) :
    (clampToMaxChars text m).length ≤ m := by
  unfold clampToMaxChars
  split
  · rename_i hc
    rcases hc with h1 | h2 | h3
    · subst h1; simp
    · omega
    · exact h3
  · exact length_clampCut_le text m

theorem ciConsume_refl (p : List Char) : ciConsume p p = some [] := by
  induction p with
  | nil => rfl
  | cons c cs ih => simp [ciConsume, ih]

theorem ciContains_append_self (a p : List Char) : ciContains p (a ++ p) = true := by
  induction a with
  | nil =>
    cases p with
    | nil => rfl
    | cons c cs => simp [ciContains, ciSearch, ciConsume_refl]
  | cons x a ih =>
    have hstep : ciContains p ((x :: a) ++ p) =
        ((ciConsume p (x :: (a ++ p))).isSome || ciContains p (a ++ p)) := rfl
    rw [hstep, ih, Bool.or_true]

theorem joinFor_length_le (t : List Char) : (joinFor t).length ≤ 2 := by
  unfold joinFor
  split <;> simp

theorem one_le_joinFor_length (t : List Char) : 1 ≤ (joinFor t).length := by
  unfold joinFor
  split <;> simp

theorem budgetOf_eq (line phrase : List Char) (m : Nat) :
    budgetOf line phrase m = m - ((joinFor (trimJs line)).length + phrase.length) := by
  unfold budgetOf
  rw [List.length_append]

theorem length_addSuffixAppendCore_le (line phrase : List Char) (m : Nat)
    (hm : phrase.length + 3 ≤ m) :
    (addSuffixAppendCore line phrase m).length ≤ m := by
  have hj2 := joinFor_length_le (trimJs line)
  have hj1 := one_le_joinFor_length (trimJs line)
  have hbud : 1 ≤ budgetOf line phrase m := by
    rw [budgetOf_eq]; omega
  have hcore : (coreOf line phrase m).length ≤ budgetOf line phrase m := by
    unfold coreOf
    exact le_trans (length_trimJs_le _)
      (le_trans (length_rstrip_le _ _)
        (le_trans (length_trimJs_le _) (length_clampToMaxChars_le _ _ hbud)))
  unfold addSuffixAppendCore
  split
  · omega
  · rw [List.length_append, List.length_append]
    rw [budgetOf_eq] at hcore
    omega

theorem ciContains_addSuffixAppendCore (line phrase : List Char) (m : Nat) :
    ciContains phrase (addSuffixAppendCore line phrase m) = true := by
  unfold addSuffixAppendCore
  split
  · simpa using ciContains_append_self [] phrase
  · exact ciContains_append_self _ phrase

theorem addSuffixSafely_length_le (line phrase : List Char) (m : Nat)
    (hp : phrase ≠ []) (hm : phrase.length + 3 ≤ m) :
    (addSuffixSafely line phrase m).length ≤ m := by
  unfold addSuffixSafely
  split_ifs with h1 h2
  · exact absurd h1 hp
  · exact length_clampToMaxChars_le _ _ (by omega)
  · exact length_addSuffixAppendCore_le line phrase m hm

/-- C6 counterexample: with the line "hello world and more", the canonical
suffix phrase and maxChars 5, addSuffixSafely returns a string of length 50
(the zero-budget fallback inside clampToMaxChars leaves the line unclamped),
exceeding maxChars, and a second application collapses the result to
"hello", so the operation is neither bounded by maxChars nor idempotent on
this input. -/
theorem addSuffixSafely_small_budget_counterexample :
    5 < (addSuffixSafely lineC6 suffixIso 5).length ∧
      addSuffixSafely (addSuffixSafely lineC6 suffixIso 5) suffixIso 5 ≠
        addSuffixSafely lineC6 suffixIso 5 := by
  decide

/-- C6 (amended): when the joined suffix phrase fits the budget
(phrase nonempty and phrase.length + 3 ≤ maxChars), addSuffixSafely never
produces output exceeding maxChars; and under the same budget condition it
is idempotent whenever the phrase does not already occur
(case-insensitively) in the line, or the line already fits maxChars.
Without the budget condition the output can exceed maxChars, and when the
phrase already occurs in a line longer than maxChars the clamping of the
first application can destroy the occurrence, breaking idempotence. -/
theorem addSuffixSafely_bounded_and_idempotent (line phrase : List Char) (m : Nat)
    (hp : phrase ≠ []) (hm : phrase.length + 3 ≤ m) :
    (addSuffixSafely line phrase m).length ≤ m ∧
      (ciContains phrase line = false ∨ line.length ≤ m →
        addSuffixSafely (addSuffixSafely line phrase m) phrase m =
          addSuffixSafely line phrase m) := by
  constructor
  · exact addSuffixSafely_length_le line phrase m hp hm
  · intro hor
    by_cases hcc : ciContains phrase line = true
    · have hlen : line.length ≤ m := by
        rcases hor with h | h
        · rw [hcc] at h; cases h
        · exact h
      have h1 : addSuffixSafely line phrase m = line := by
        unfold addSuffixSafely
        rw [if_neg hp, if_pos hcc]
        exact clampToMaxChars_noop line m hlen
      rw [h1]
      exact h1
    · have h1 : addSuffixSafely line phrase m = addSuffixAppendCore line phrase m := by
        unfold addSuffixSafely
        rw [if_neg hp, if_neg hcc]
      rw [h1]
      have hR := ciContains_addSuffixAppendCore line phrase m
      have hRlen := length_addSuffixAppendCore_le line phrase m hm
      unfold addSuffixSafely
      rw [if_neg hp, if_pos hR]
      exact clampToMaxChars_noop _ m hRlen

/-- C6 witness: the amended theorem applied at the line "A cat", the
canonical suffix and maxChars 250. -/
theorem addSuffixSafely_bounded_and_idempotent_witness :
    (addSuffixSafely "A cat".toList suffixIso 250).length ≤ 250 ∧
      (ciContains suffixIso "A cat".toList = false ∨ ("A cat".toList).length ≤ 250 →
        addSuffixSafely (addSuffixSafely "A cat".toList suffixIso 250) suffixIso 250 =
          addSuffixSafely "A cat".toList suffixIso 250) :=
  addSuffixSafely_bounded_and_idempotent "A cat".toList suffixIso 250 (by decide) (by decide)

/-- C8: clampToMaxChars of "one two three four" with budget 10 cuts at the
last word boundary (index 7, past 60 percent of the budget) and yields
"one two" rather than the mid-word "one two th"; clampToMaxChars of
"one two" with budget 3 has no space in the sliced prefix and falls back to
the hard character cut "one" with trailing punctuation and whitespace
stripped. -/
theorem clampToMaxChars_wordBoundary_and_hardCut :
    clampToMaxChars "one two three four".toList 10 = "one two".toList ∧
      clampToMaxChars "one two".toList 3 = "one".toList := by
  decide

/-- C10: clampToMaxChars does not enforce a positive maxChars at its
boundary: with maxChars 0 every text is returned unchanged with no
truncation; a null or empty text yields the empty string; and whenever the
text already fits the budget it is returned unchanged, so truncation runs
only when both arguments are truthy and the text is longer than
maxChars. -/
theorem clampToMaxChars_boundary_behaviour :
    (∀ t : List Char, clampToMaxChars t 0 = t) ∧
      (∀ m : Nat, clampToMaxCharsOpt none m = [] ∧ clampToMaxChars [] m = []) ∧
      (∀ (t : List Char) (m : Nat), t.length ≤ m → clampToMaxChars t m = t) := by
  refine ⟨?_, ?_, ?_⟩
  · intro t
    unfold clampToMaxChars
    rw [if_pos (Or.inr (Or.inl rfl))]
  · intro m
    refine ⟨rfl, ?_⟩
    unfold clampToMaxChars
    rw [if_pos (Or.inl rfl)]
  · intro t m h
    exact clampToMaxChars_noop t m h

/-- C10 witness: the boundary behaviour at concrete inputs: maxChars 0
leaves a six-character text unchanged, and a text that fits its budget is
returned unchanged. -/
theorem clampToMaxChars_boundary_behaviour_witness :
    clampToMaxChars "abcdef".toList 0 = "abcdef".toList ∧
      clampToMaxChars "abc".toList 5 = "abc".toList :=
  ⟨clampToMaxChars_boundary_behaviour.1 "abcdef".toList,
   clampToMaxChars_boundary_behaviour.2.2 "abc".toList 5 (by decide)⟩

set_option maxHeartbeats 4000000 in
/-- C1: on the raw response "A cat on a transparent background, copy space
on the left" with cutout true, the text pipeline (first-line selection,
copy-space stripping, white-background rewriting, suffix append, clamp)
yields a string containing neither "copy space" nor
"transparent background", ending with "isolated on white background" and of
length at most the configured maxChars 250. -/
theorem processApiResponseTxt_endToEnd :
    containsSub "copy space".toList (processApiResponseTxt rawC1 true false 250) = false ∧
      containsSub "transparent background".toList
        (processApiResponseTxt rawC1 true false 250) = false ∧
      endsWithSub suffixIso (processApiResponseTxt rawC1 true false 250) = true ∧
      (processApiResponseTxt rawC1 true false 250).length ≤ 250 := by
  have h : processApiResponseTxt rawC1 true false 250 =
      "A cat on a white background, isolated on white background".toList := by rfl
  rw [h]
  decide

set_option maxHeartbeats 4000000 in
/-- C2 counterexample: on the raw response "a product photo, alpha
background" with both signals false, the stripped text mentions an alpha
background in the sense of the claim, yet the pipeline neither rewrites the
background phrasing to white nor appends the canonical suffix: the output
does not end with "isolated on white background" and still contains
"alpha background", because the code only tests for
transparent-plus-background. -/
theorem processApiResponseTxt_alpha_not_rewritten :
    specMentionsAnyBg (stripCopySpace (firstNonEmptyLine rawC2)) = true ∧
      endsWithSub suffixIso (processApiResponseTxt rawC2 false false 250) = false ∧
      containsSub "alpha background".toList (processApiResponseTxt rawC2 false false 250) = true := by
  decide

/-- C2 (amended): the white-background rewrite and the budget-safe suffix
append happen exactly under the code's trigger: signals.cutout or
signals.checkerboard is true, or the copy-space-stripped text matches
transparent followed by whitespace and background, case-insensitively.
A mention of an alpha, clear, or no background alone does not trigger the
rewrite (see the counterexample); when the rewrite is triggered, those
phrasings are rewritten together with the transparent ones and the
canonical suffix is appended via the budget-safe append. -/
theorem processApiResponseTxt_rewrite_condition (text : List Char)
    (cutout checker : Bool) (m : Nat)
    (h : (cutout || checker ||
        containsTransparentBg (stripCopySpace (firstNonEmptyLine text))) = true) :
    processApiResponseTxt text cutout checker m =
      clampToMaxChars
        (addSuffixSafely (forceWhiteBackground (stripCopySpace (firstNonEmptyLine text)))
          suffixIso m) m := by
  unfold processApiResponseTxt
  cases hc : (cutout || checker) with
  | false =>
    rw [hc, Bool.false_or] at h
    simp [hc, h]
  | true =>
    simp [hc]

/-- C2 witness: the amended theorem applied to the end-to-end input with
cutout true. -/
theorem processApiResponseTxt_rewrite_condition_witness :
    processApiResponseTxt rawC1 true false 250 =
      clampToMaxChars
        (addSuffixSafely (forceWhiteBackground (stripCopySpace (firstNonEmptyLine rawC1)))
          suffixIso 250) 250 :=
  processApiResponseTxt_rewrite_condition rawC1 true false 250 (by decide)

theorem retryLoop_invariant (outcome : Nat → NetOutcome) :
    ∀ fuel done : Nat,
      (retryLoop outcome fuel done (lastRecordedUpTo outcome done)).2 ≤ done + fuel ∧
        ((∃ t, (retryLoop outcome fuel done (lastRecordedUpTo outcome done)).1 = .ok t ∧
            t ≠ "") ∨
          (retryLoop outcome fuel done (lastRecordedUpTo outcome done)).1 =
            .error ((lastRecordedUpTo outcome
                ((retryLoop outcome fuel done (lastRecordedUpTo outcome done)).2)).getD
              .allKeysFailed)) := by
  intro fuel
  induction fuel with
  | zero =>
    intro done
    exact ⟨by simp [retryLoop], Or.inr (by simp [retryLoop])⟩
  | succ fuel ih =>
    intro done
    cases h : outcome (done + 1) with
    | rateLimited =>
      have hrec : lastRecordedUpTo outcome (done + 1) = some .rateLimitExceeded := by
        simp [lastRecordedUpTo, h, recordOf, Option.orElse]
      have hstep : retryLoop outcome (fuel + 1) done (lastRecordedUpTo outcome done) =
          retryLoop outcome fuel (done + 1) (lastRecordedUpTo outcome (done + 1)) := by
        rw [hrec]
        simp [retryLoop, h]
      rw [hstep]
      have hi := ih (done + 1)
      exact ⟨by omega, hi.2⟩
    | serverError =>
      have hrec : lastRecordedUpTo outcome (done + 1) = lastRecordedUpTo outcome done := by
        simp [lastRecordedUpTo, h, recordOf, Option.orElse]
      have hstep : retryLoop outcome (fuel + 1) done (lastRecordedUpTo outcome done) =
          retryLoop outcome fuel (done + 1) (lastRecordedUpTo outcome (done + 1)) := by
        rw [hrec]
        simp [retryLoop, h]
      rw [hstep]
      have hi := ih (done + 1)
      exact ⟨by omega, hi.2⟩
    | clientError msg =>
      have hrec : lastRecordedUpTo outcome (done + 1) = some (.apiError msg) := by
        simp [lastRecordedUpTo, h, recordOf, Option.orElse]
      have hstep : retryLoop outcome (fuel + 1) done (lastRecordedUpTo outcome done) =
          retryLoop outcome fuel (done + 1) (lastRecordedUpTo outcome (done + 1)) := by
        rw [hrec]
        simp [retryLoop, h]
      rw [hstep]
      have hi := ih (done + 1)
      exact ⟨by omega, hi.2⟩
    | networkError msg =>
      have hrec : lastRecordedUpTo outcome (done + 1) = some (.networkFailure msg) := by
        simp [lastRecordedUpTo, h, recordOf, Option.orElse]
      have hstep : retryLoop outcome (fuel + 1) done (lastRecordedUpTo outcome done) =
          retryLoop outcome fuel (done + 1) (lastRecordedUpTo outcome (done + 1)) := by
        rw [hrec]
        simp [retryLoop, h]
      rw [hstep]
      have hi := ih (done + 1)
      exact ⟨by omega, hi.2⟩
    | success t =>
      by_cases ht : t = ""
      · have hrec : lastRecordedUpTo outcome (done + 1) = some .emptyResponse := by
          simp [lastRecordedUpTo, h, recordOf, Option.orElse, ht]
        have hstep : retryLoop outcome (fuel + 1) done (lastRecordedUpTo outcome done) =
            retryLoop outcome fuel (done + 1) (lastRecordedUpTo outcome (done + 1)) := by
          rw [hrec]
          simp [retryLoop, h, ht]
        rw [hstep]
        have hi := ih (done + 1)
        exact ⟨by omega, hi.2⟩
      · have hstep : retryLoop outcome (fuel + 1) done (lastRecordedUpTo outcome done) =
            (.ok t, done + 1) := by
          simp [retryLoop, h, ht]
        rw [hstep]
        exact ⟨by omega, Or.inl ⟨t, rfl, ht⟩⟩

/-- C3: for every key list and every sequence of attempt outcomes, the
retry loop of callGeminiAPI performs at most credentialCount times three
attempts (and, being a total function of that fuel, always terminates),
and it exits either with a usable payload or with the last recorded error,
defaulting to the generic exhaustion error when no error was recorded. -/
theorem callGeminiAPIRetry_bounded_terminates (keys : List String)
    (outcome : Nat → NetOutcome) :
    (callGeminiAPIRetry keys outcome).2 ≤ keys.length * 3 ∧
      ((∃ t, (callGeminiAPIRetry keys outcome).1 = .ok t ∧ t ≠ "") ∨
        (callGeminiAPIRetry keys outcome).1 =
          .error ((lastRecordedUpTo outcome
              ((callGeminiAPIRetry keys outcome).2)).getD .allKeysFailed)) := by
  have h0 : lastRecordedUpTo outcome 0 = none := rfl
  have h := retryLoop_invariant outcome (keys.length * 3) 0
  rw [h0] at h
  unfold callGeminiAPIRetry
  simpa using h

/-- C4: whenever every credential in the configured list is available
(nextAvailableAt at most now), pickBestKey returns the first credential in
configured order with zero wait; for the empty list the defensive fallback
returns keys[0], which is again the head of the list. -/
theorem pickBestKey_first_fit (st : PoolState) (now : Nat) (keys : List String)
    (h : ∀ k ∈ keys, (keyStateGet st k).nextAt ≤ now) :
    pickBestKey st now keys = (keys.head?, 0) := by
  cases keys with
  | nil => rfl
  | cons k rest =>
    unfold pickBestKey pickBestKeyAux
    rw [if_pos (h k (List.mem_cons_self k rest))]
    rfl

/-- C4 witness: on a fresh pool both keys are available and the first
configured key is chosen with zero wait. -/
theorem pickBestKey_first_fit_witness :
    pickBestKey emptyPool 5 ["alpha", "beta"] = (some "alpha", 0) :=
  pickBestKey_first_fit emptyPool 5 ["alpha", "beta"] (by decide)

theorem penalizeIter_fails (st : PoolState) (key : String) (times : Nat → Nat)
    (h0 : keyStateGet st key = ⟨0, 0⟩) :
    ∀ n, (keyStateGet (penalizeIter st key times n) key).fails = n := by
  intro n
  induction n with
  | zero => simp [penalizeIter, h0]
  | succ n ih =>
    simp [penalizeIter, markKey429, keyStateGet]
    exact ih

/-- C5: starting from the success-reset state, k consecutive markKey429
applications with no intervening success leave
nextAvailableAt minus now equal to min of the cooldown cap (ten minutes)
and 30000 times k, the linear backoff capped at the configured maximum;
equivalently nextAvailableAt equals now plus that cooldown, where now is
the time of the k-th penalty. -/
theorem markKey429_linear_capped_backoff (st : PoolState) (key : String)
    (times : Nat → Nat) (n : Nat) (h0 : keyStateGet st key = ⟨0, 0⟩) (hn : 0 < n) :
    (keyStateGet (penalizeIter st key times n) key).nextAt - times n =
        min COOLDOWN_MAX_MS (30000 * n) ∧
      (keyStateGet (penalizeIter st key times n) key).nextAt =
        times n + min COOLDOWN_MAX_MS (30000 * n) := by
  obtain ⟨m, rfl⟩ : ∃ m, n = m + 1 := ⟨n - 1, by omega⟩
  have hf := penalizeIter_fails st key times h0 m
  have hf2 : (((penalizeIter st key times m).keyMap key).getD ⟨0, 0⟩).fails = m := hf
  have hrec : keyStateGet (penalizeIter st key times (m + 1)) key =
      ⟨times (m + 1) + min COOLDOWN_MAX_MS (30000 * (m + 1)), m + 1⟩ := by
    simp [penalizeIter, markKey429, keyStateGet, hf2]
  rw [hrec]
  refine ⟨?_, rfl⟩
  show times (m + 1) + min COOLDOWN_MAX_MS (30000 * (m + 1)) - times (m + 1) =
    min COOLDOWN_MAX_MS (30000 * (m + 1))
  omega

/-- C5 witness: twenty-five consecutive penalties on a fresh pool reach
the cooldown cap: the backoff equals min of 600000 and 750000. -/
theorem markKey429_linear_capped_backoff_witness :
    (keyStateGet (penalizeIter emptyPool "alpha" (fun i => 1000 * i) 25) "alpha").nextAt -
        (fun i : Nat => 1000 * i) 25 = min COOLDOWN_MAX_MS (30000 * 25) ∧
      (keyStateGet (penalizeIter emptyPool "alpha" (fun i => 1000 * i) 25) "alpha").nextAt =
        (fun i : Nat => 1000 * i) 25 + min COOLDOWN_MAX_MS (30000 * 25) :=
  markKey429_linear_capped_backoff emptyPool "alpha" (fun i => 1000 * i) 25
    (by decide) (by decide)

theorem applyEvent_fails_mono (e : PoolEvent) (st : PoolState) (key : String)
    (h : isSuccessFor key e = false) :
    (keyStateGet st key).fails ≤ (keyStateGet (applyEvent e st) key).fails := by
  cases e with
  | ok k2 t =>
    have hne : ¬key = k2 := by
      intro hk
      subst hk
      simp [isSuccessFor] at h
    simp [applyEvent, markKeyOK, keyStateGet, hne]
  | rate429 k2 t =>
    by_cases hk : key = k2
    · subst hk
      simp [applyEvent, markKey429, keyStateGet]
    · simp [applyEvent, markKey429, keyStateGet, hk]

/-- C7: for every credential and every sequence of outcome-handler calls,
the failure counter is monotonically non-decreasing as long as no success
is recorded for that credential; a success handler call resets the record
to fails 0 and nextAvailableAt 0 regardless of the prior value; a penalty
call increments the counter by exactly one (so it never resets it); and
handler calls for other credentials leave the record unchanged. -/
theorem consecutiveFailures_monotone_and_reset (evs : List PoolEvent) (st : PoolState)
    (key : String) :
    ((∀ e ∈ evs, isSuccessFor key e = false) →
        (keyStateGet st key).fails ≤ (keyStateGet (applyEvents evs st) key).fails) ∧
      (∀ t, keyStateGet (applyEvent (.ok key t) st) key = ⟨0, 0⟩) ∧
      (∀ t, (keyStateGet (applyEvent (.rate429 key t) st) key).fails =
          (keyStateGet st key).fails + 1) ∧
      (∀ k2 t, ¬key = k2 →
        keyStateGet (applyEvent (.ok k2 t) st) key = keyStateGet st key ∧
          keyStateGet (applyEvent (.rate429 k2 t) st) key = keyStateGet st key) := by
  refine ⟨?_, ?_, ?_, ?_⟩
  · induction evs generalizing st with
    | nil =>
      intro _
      simp [applyEvents]
    | cons e evs ih =>
      intro h
      have h1 := applyEvent_fails_mono e st key (h e (List.mem_cons_self e evs))
      have h2 := ih (applyEvent e st) (fun e2 he2 => h e2 (List.mem_cons_of_mem e he2))
      simp only [applyEvents, List.foldl_cons] at h2 ⊢
      exact le_trans h1 h2
  · intro t
    simp [applyEvent, markKeyOK, keyStateGet]
  · intro t
    simp [applyEvent, markKey429, keyStateGet]
  · intro k2 t hne
    constructor
    · simp [applyEvent, markKeyOK, keyStateGet, hne]
    · simp [applyEvent, markKey429, keyStateGet, hne]

/-- C7 witness: two penalties (one for another key) never decrease the
counter of key alpha, and a success for alpha resets its record. -/
theorem consecutiveFailures_monotone_and_reset_witness :
    (keyStateGet emptyPool "alpha").fails ≤
        (keyStateGet
          (applyEvents [PoolEvent.rate429 "alpha" 3, PoolEvent.rate429 "beta" 4] emptyPool)
          "alpha").fails ∧
      keyStateGet (applyEvent (PoolEvent.ok "alpha" 9) emptyPool) "alpha" = ⟨0, 0⟩ :=
  ⟨(consecutiveFailures_monotone_and_reset
      [PoolEvent.rate429 "alpha" 3, PoolEvent.rate429 "beta" 4] emptyPool "alpha").1
      (by decide),
   (consecutiveFailures_monotone_and_reset
      [PoolEvent.rate429 "alpha" 3, PoolEvent.rate429 "beta" 4] emptyPool "alpha").2.1 9⟩

/-- C9: for every input, including a null or empty data URL and every
possible behaviour of the internal pixel analysis (modelled as an
arbitrary fallible computation), the analyzers never propagate an error:
a falsy input yields the neutral results, any internal failure yields the
neutral results, and in general each analyzer returns either its neutral
result or the successful value of its body. -/
theorem analyzers_fail_soft (dataUrl : Option (List Char))
    (bodyCs : List Char → Except String CopySpaceResult)
    (bodyCut : List Char → Except String CutoutResult) :
    (dataUrl = none →
        detectCopySpace dataUrl bodyCs = neutralCopySpace ∧
          detectCutoutOrCheckerboard dataUrl bodyCut = neutralCutout) ∧
      (∀ d e, dataUrl = some d → bodyCs d = .error e →
        detectCopySpace dataUrl bodyCs = neutralCopySpace) ∧
      (∀ d e, dataUrl = some d → bodyCut d = .error e →
        detectCutoutOrCheckerboard dataUrl bodyCut = neutralCutout) ∧
      (detectCopySpace dataUrl bodyCs = neutralCopySpace ∨
        ∃ d r, dataUrl = some d ∧ bodyCs d = .ok r ∧
          detectCopySpace dataUrl bodyCs = r) ∧
      (detectCutoutOrCheckerboard dataUrl bodyCut = neutralCutout ∨
        ∃ d r, dataUrl = some d ∧ bodyCut d = .ok r ∧
          detectCutoutOrCheckerboard dataUrl bodyCut = r) := by
  refine ⟨?_, ?_, ?_, ?_, ?_⟩
  · rintro rfl
    exact ⟨rfl, rfl⟩
  · rintro d e rfl hb
    by_cases hd : d.isEmpty = true
    · simp [detectCopySpace, hd]
    · simp [detectCopySpace, hd, hb]
  · rintro d e rfl hb
    by_cases hd : d.isEmpty = true
    · simp [detectCutoutOrCheckerboard, hd]
    · simp [detectCutoutOrCheckerboard, hd, hb]
  · cases dataUrl with
    | none => exact Or.inl rfl
    | some d =>
      by_cases hd : d.isEmpty = true
      · exact Or.inl (by simp [detectCopySpace, hd])
      · cases hb : bodyCs d with
        | ok r => exact Or.inr ⟨d, r, rfl, hb, by simp [detectCopySpace, hd, hb]⟩
        | error e => exact Or.inl (by simp [detectCopySpace, hd, hb])
  · cases dataUrl with
    | none => exact Or.inl rfl
    | some d =>
      by_cases hd : d.isEmpty = true
      · exact Or.inl (by simp [detectCutoutOrCheckerboard, hd])
      · cases hb : bodyCut d with
        | ok r => exact Or.inr ⟨d, r, rfl, hb, by simp [detectCutoutOrCheckerboard, hd, hb]⟩
        | error e => exact Or.inl (by simp [detectCutoutOrCheckerboard, hd, hb])

/-- C9 witness: a failing body (an undecodable image) degrades both
analyzers to their neutral results on a concrete input. -/
theorem analyzers_fail_soft_witness :
    detectCopySpace (some ['x']) (fun _ => Except.error "decode failed") = neutralCopySpace ∧
      detectCutoutOrCheckerboard (some ['x'])
        (fun _ => Except.error "decode failed") = neutralCutout :=
  ⟨(analyzers_fail_soft (some ['x']) (fun _ => Except.error "decode failed")
      (fun _ => Except.error "decode failed")).2.1 ['x'] "decode failed" rfl rfl,
   (analyzers_fail_soft (some ['x']) (fun _ => Except.error "decode failed")
      (fun _ => Except.error "decode failed")).2.2.1 ['x'] "decode failed" rfl rfl⟩

end PromptForge
